import Mathlib

/-!
Verification of the bq769x0 battery-management driver (bq769x0.cpp).

Shallow embedding: each C function relevant to the checked claims is
translated into an executable Lean definition.  Machine integers are
modelled as `Nat`/`Int` (the source values in play stay far below the
32-bit range, except where a wrap matters, in which case the wrap is
modelled explicitly, e.g. the `&&& 0xFF` masks and `% 256` byte
truncations).  Floating-point quantities (shunt resistance, SOC
arithmetic, temperatures) are modelled as exact rationals `ℚ`.
-/

namespace Bq769x0

/-! ## Register transport: CRC-8-CCITT (`_crc8_ccitt_update`, bq769x0.cpp:53-73)

`uint8_t` arithmetic: every shift is truncated `% 256`. -/

/-- One shift step of the CRC-8 loop body: if the top bit is set,
shift left and xor the polynomial `0x07`, else just shift left. -/
def crc8Step (data : ℕ) : ℕ :=
  if data &&& 0x80 ≠ 0 then ((data <<< 1) % 256) ^^^ 0x07
  else (data <<< 1) % 256

/-- `_crc8_ccitt_update(inCrc, inData)`: xor the bytes, then run eight
shift steps. -/
def crc8ccittUpdate (inCrc inData : ℕ) : ℕ :=
  crc8Step^[8] ((inCrc ^^^ inData) % 256)

/-- The CRC-8-CCITT checksum (polynomial `0x07`, initial value `0`) over
the two bytes `{busAddrRead, data}` — the value the spec says the read
path validates against. -/
def crc8OverAddrData (busAddrRead data : ℕ) : ℕ :=
  crc8ccittUpdate (crc8ccittUpdate 0 busAddrRead) data

/-! ## `readRegister` with CRC enabled (bq769x0.cpp:828-856)

The bus is modelled as the list of `(data, crcSlave)` byte pairs the
device supplies to successive iterations of the `do { } while` loop.
The C code initialises `crc = 0` once, BEFORE the loop, and the
accumulator is carried over from one iteration to the next — this is
translated faithfully. The loop exits (returning the data byte together
with the CRC byte it arrived with) exactly when the accumulated crc
equals the received crc byte; if the list is exhausted first, the loop
is still spinning (`none`). -/

def readRegisterLoop (addrByteRead : ℕ) : ℕ → List (ℕ × ℕ) → Option (ℕ × ℕ)
  | _, [] => none
  | crc, (data, crcSlave) :: rest =>
    let crc1 := crc8ccittUpdate crc addrByteRead
    let crc2 := crc8ccittUpdate crc1 data
    if crc2 = crcSlave then some (data, crcSlave)
    else readRegisterLoop addrByteRead crc2 rest

/-- `readRegister(address)` with `crcEnabled`: the returned `(data, crc)`
pair for a given I²C address and received byte-pair sequence. -/
def readRegister (i2cAddress : ℕ) (pairs : List (ℕ × ℕ)) : Option (ℕ × ℕ) :=
  readRegisterLoop ((i2cAddress <<< 1) ||| 1) 0 pairs

/-! ## Threshold configurator: UV/OV trip registers
(`setCellUndervoltageProtection` bq769x0.cpp:590-615,
`setCellOvervoltageProtection` bq769x0.cpp:619-643)

The chip reports `adcOffset ∈ [0,255]` (the source reads the register
byte without sign extension) and `adcGain = 365 + bits ∈ [365, 396]`;
all quantities in play are nonnegative, so the C `int`/`long`
arithmetic is modelled over `ℕ` (the theorems carry the hypothesis
`adcOffset ≤ voltage_mV` under which C signed subtraction and `ℕ`
truncated subtraction agree, and `>> 4`, `& 0xFF`, `/` agree with their
`ℕ` counterparts). -/

/-- `uv_trip` byte as computed by `setCellUndervoltageProtection`:
`((((long)voltage_mV - adcOffset) * 1000 / adcGain) >> 4) & 0x00FF`
followed by the `+ 1` rounding bias. -/
def uv_trip (adcGain adcOffset voltage_mV : ℕ) : ℕ :=
  ((((voltage_mV - adcOffset) * 1000 / adcGain) >>> 4) &&& 0xFF) + 1

/-- Achieved threshold returned by `setCellUndervoltageProtection`:
`((long)1 << 12 | uv_trip << 4) * adcGain / 1000 + adcOffset`. -/
def setCellUndervoltageProtection (adcGain adcOffset voltage_mV : ℕ) : ℕ :=
  ((1 <<< 12) ||| (uv_trip adcGain adcOffset voltage_mV <<< 4)) * adcGain / 1000 + adcOffset

/-- `ov_trip` byte as computed by `setCellOvervoltageProtection` (no bias). -/
def ov_trip (adcGain adcOffset voltage_mV : ℕ) : ℕ :=
  (((voltage_mV - adcOffset) * 1000 / adcGain) >>> 4) &&& 0xFF

/-- Achieved threshold returned by `setCellOvervoltageProtection`:
`((long)1 << 13 | ov_trip << 4) * adcGain / 1000 + adcOffset`. -/
def setCellOvervoltageProtection (adcGain adcOffset voltage_mV : ℕ) : ℕ :=
  ((1 <<< 13) ||| (ov_trip adcGain adcOffset voltage_mV <<< 4)) * adcGain / 1000 + adcOffset

/-! ## Device variants and the cell-voltage store (C7) -/

/-- Chip variants distinguished in the constructor (bq769x0.cpp:97-103). -/
inductive BqType
  | bq76920
  | bq76930
  | bq76940
deriving DecidableEq

/-- Cell count fixed at construction (bq769x0.cpp:97-103). -/
def numberOfCells : BqType → ℕ
  | .bq76920 => 5
  | .bq76930 => 10
  | .bq76940 => 15

/-- Modelled from the spec: the declaration of the `cellVoltages` array
lives in the header `bq769x0.h`, which is not part of the provided
sources; per the spec (§3 CellVoltages) the store is an "ordered
sequence of `numberOfCells - 1` … readings", matching the
initialisation loop in the constructor `for (i = 0; i < numberOfCells - 1;
i++) cellVoltages[i] = 0;` (bq769x0.cpp:106-108). -/
def cellVoltagesLength (t : BqType) : ℕ := numberOfCells t - 1

/-- The indices written (and then read) by the cell-read loop of
`updateVoltages`: `for (int i = 0; i < numberOfCells; i++)`
(bq769x0.cpp:780-800). -/
def updateVoltagesLoopIndices (t : BqType) : List ℕ :=
  List.range (numberOfCells t)

/-! ## Temperature getters (bq769x0.cpp:684-699)

The temperature store is modelled as a total map from index to the
stored `int` (°C × 10); the getters are pure functions of it. -/

/-- `getTemperatureDegC(channel)`: `temperatures[channel-1] / 10.0` for
channels 1..3, else the error sentinel `-273.15`. -/
def getTemperatureDegC (temperatures : ℕ → ℤ) (channel : ℤ) : ℚ :=
  if 1 ≤ channel ∧ channel ≤ 3 then ((temperatures (channel - 1).toNat : ℚ)) / 10
  else -273.15

/-- `getTemperatureDegF(channel) = getTemperatureDegC(channel) * 1.8 + 32`. -/
def getTemperatureDegF (temperatures : ℕ → ℤ) (channel : ℤ) : ℚ :=
  getTemperatureDegC temperatures channel * 1.8 + 32

/-! ## Balancing engine (`updateBalancingSwitches`, bq769x0.cpp:352-422) -/

/-- The balancing eligibility gate (bq769x0.cpp:364-367): fault check
passes, sufficient idle time, max cell above the absolute threshold,
and max−min spread above the differential threshold. `statusOk`
abstracts `checkStatus() == 0`. -/
def balancingAllowed (statusOk : Bool) (idleSeconds balancingMinIdleTime_s : ℤ)
    (cellVoltages : ℕ → ℤ) (idCellMaxVoltage idCellMinVoltage : ℕ)
    (balancingMinCellVoltage_mV balancingMaxVoltageDifference_mV : ℤ) : Prop :=
  statusOk = true ∧
  idleSeconds ≥ balancingMinIdleTime_s ∧
  cellVoltages idCellMaxVoltage > balancingMinCellVoltage_mV ∧
  cellVoltages idCellMaxVoltage - cellVoltages idCellMinVoltage >
    balancingMaxVoltageDifference_mV

/-- Body of the per-section cell loop (bq769x0.cpp:379-395): a cell is a
candidate when its voltage exceeds the pack minimum by more than the
differential threshold; it is actually added only when setting its bit
causes no adjacent-bit collision (shifted-bit test in both directions). -/
def balanceCellStep (cellVoltages : ℕ → ℤ) (idCellMinVoltage : ℕ)
    (balancingMaxVoltageDifference_mV : ℤ) (sec : ℕ)
    (balancingFlags : ℕ) (i : ℕ) : ℕ :=
  if cellVoltages (sec * 5 + i) - cellVoltages idCellMinVoltage >
      balancingMaxVoltageDifference_mV then
    let balancingFlagsTarget := balancingFlags ||| (1 <<< i)
    if (balancingFlagsTarget <<< 1) &&& balancingFlags ≠ 0 ∨
        (balancingFlags <<< 1) &&& balancingFlagsTarget ≠ 0 then
      balancingFlags
    else
      balancingFlagsTarget
  else
    balancingFlags

/-- The flag byte written to `CELLBAL1+section` for one section when the
gate holds (bq769x0.cpp:378-404): fold of `balanceCellStep` over the
five cells of the section, starting from `balancingFlags = 0`. -/
def balanceSectionFlags (cellVoltages : ℕ → ℤ) (idCellMinVoltage : ℕ)
    (balancingMaxVoltageDifference_mV : ℤ) (sec : ℕ) : ℕ :=
  (List.range 5).foldl
    (balanceCellStep cellVoltages idCellMinVoltage balancingMaxVoltageDifference_mV sec) 0

/-! ## `updateVoltages` max/min index tracking (bq769x0.cpp:765-801)

The converted cell voltage of channel `i` is abstracted as `v i`; the
loop state is the pair `(idCellMaxVoltage, idCellMinVoltage)`, both
reset to 0 before the loop. -/

/-- The index pair after the first `n` iterations of the cell loop. -/
def updateVoltagesIds (v : ℕ → ℤ) : ℕ → ℕ × ℕ
  | 0 => (0, 0)
  | n + 1 =>
    let p := updateVoltagesIds v n
    ((if v n > v p.1 then n else p.1),
     (if v n < v p.2 ∧ v n > 500 then n else p.2))

/-! ## Fault state machine, SCD auto-clear timing (`checkStatus`,
bq769x0.cpp:155-255)

The scenario of the claim: the status byte read on every call has
exactly the SCD bit (`0b00000010`) set.  `CC_READY` (bit 7) is clear, so
the inline `updateCurrent()` never runs and never touches
`alertInterruptFlag`; nothing else clears that flag while a fault bit is
latched, so it stays `true` for the whole run.  The UV/OV branches
(voltage-dependent) are guarded by status bits that are 0 in this
scenario; their clear conditions are abstracted by `uvOk`/`ovOk`.
`checkStatus` is called once per second; `_timer.read_ms()` equals
`1000 * t` and `interruptTimestamp = 0`, so `secSinceInterrupt = t`. -/

structure FaultSimState where
  alertInterruptFlag : Bool
  errorStatus : ℕ
  secSinceErrorCounter : ℤ
  /-- instrumentation: `(mask, second)` of every `writeRegister(SYS_STAT, mask)`
  clear attempt issued so far. -/
  clearWrites : List (ℕ × ℤ)
deriving DecidableEq, Repr

/-- One `checkStatus()` call at second `t` with status byte `sysStat`. -/
def checkStatusStep (uvOk ovOk : Bool) (sysStat : ℕ) (t : ℤ)
    (s : FaultSimState) : FaultSimState :=
  if s.alertInterruptFlag = false ∧ s.errorStatus = 0 then s
  else if sysStat &&& 0b00111111 ≠ 0 then
    let c0 : ℤ := if s.alertInterruptFlag then 0 else s.secSinceErrorCounter
    let secSinceInterrupt : ℤ := t
    let c1 : ℤ := if |secSinceInterrupt - c0| > 2 then secSinceInterrupt else c0
    if secSinceInterrupt ≥ c1 then
      let w0 := s.clearWrites
      let w1 := if sysStat &&& 0b00100000 ≠ 0 ∧ c1 % 3 = 0 then w0 ++ [(0b00100000, t)] else w0
      let w2 := if sysStat &&& 0b00010000 ≠ 0 ∧ c1 % 10 = 0 then w1 ++ [(0b00010000, t)] else w1
      let w3 := if sysStat &&& 0b00001000 ≠ 0 ∧ uvOk = true then w2 ++ [(0b00001000, t)] else w2
      let w4 := if sysStat &&& 0b00000100 ≠ 0 ∧ ovOk = true then w3 ++ [(0b00000100, t)] else w3
      let w5 := if sysStat &&& 0b00000010 ≠ 0 ∧ c1 % 60 = 0 then w4 ++ [(0b00000010, t)] else w4
      let w6 := if sysStat &&& 0b00000001 ≠ 0 ∧ c1 % 60 = 0 then w5 ++ [(0b00000001, t)] else w5
      { s with errorStatus := sysStat, secSinceErrorCounter := c1 + 1, clearWrites := w6 }
    else
      { s with errorStatus := sysStat, secSinceErrorCounter := c1 }
  else
    { s with errorStatus := 0 }

/-- A run of `n` seconds: the alert interrupt fired at second 0 (setting
the flag), and `checkStatus` is called once at each second `0..n-1`
with only the SCD bit latched in `SYS_STAT`. -/
def scdRun (n : ℕ) : FaultSimState :=
  (List.range n).foldl
    (fun s t => checkStatusStep false false 0b00000010 (t : ℤ) s)
    { alertInterruptFlag := true, errorStatus := 0, secSinceErrorCounter := 0,
      clearWrites := [] }

/-- The seconds at which an SCD clear attempt (`writeRegister(SYS_STAT,
0b00000010)`) was issued during an `n`-second run. -/
def scdClearSeconds (n : ℕ) : List ℤ :=
  ((scdRun n).clearWrites.filter (fun w => w.1 = 0b00000010)).map (·.2)

/-! ## Threshold/delay table selection
(`setShortCircuitProtection` bq769x0.cpp:518-546,
`setOvercurrentDischargeProtection` bq769x0.cpp:558-585)

Modelled from the spec: the concrete `SCD_threshold_setting`,
`SCD_delay_setting`, `OCD_threshold_setting` and `OCD_delay_setting`
arrays (and hence their lengths) are declared in the headers, which are
not part of the provided sources; per the spec they are "monotonic
lookup tables", so the tables appear as parameters constrained to be
sorted in ascending order, and the downward scan starts at the last
index of the table.  The `float` shunt normalisation
`current_mA * shuntResistorValue_mOhm / 1000` is modelled exactly over
`ℚ`. -/

/-- The downward scan shared by all four configurators:
`code = 0; for (i = last; i > 0; i--) if (req >= table[i]) { code = i; break; }`.
The argument is the index the scan starts at (the last index of the
table); index 0 is never tested — it is the default. -/
def selectSetting {α : Type} [LinearOrder α] (table : List α) (req : α) : ℕ → ℕ
  | 0 => 0
  | i + 1 => if table.getD (i + 1) req ≤ req then i + 1 else selectSetting table req i

/-- `setShortCircuitProtection(current_mA, delay_us)`: the selected
`SCD_THRESH` code, the selected `SCD_DELAY` code, and the returned
achieved current `SCD_threshold_setting[code] * 1000 / shunt`. -/
def setShortCircuitProtection (SCD_threshold_setting : List ℚ)
    (SCD_delay_setting : List ℤ) (shuntResistorValue_mOhm : ℚ)
    (current_mA : ℚ) (delay_us : ℤ) : ℕ × ℕ × ℚ :=
  let thresh := selectSetting SCD_threshold_setting
    (current_mA * shuntResistorValue_mOhm / 1000) (SCD_threshold_setting.length - 1)
  let delay := selectSetting SCD_delay_setting delay_us (SCD_delay_setting.length - 1)
  (thresh, delay,
    SCD_threshold_setting.getD thresh 0 * 1000 / shuntResistorValue_mOhm)

/-- `setOvercurrentDischargeProtection(current_mA, delay_ms)`: the
selected `OCD_THRESH` code, the selected `OCD_DELAY` code, and the
returned achieved current. -/
def setOvercurrentDischargeProtection (OCD_threshold_setting : List ℚ)
    (OCD_delay_setting : List ℤ) (shuntResistorValue_mOhm : ℚ)
    (current_mA : ℚ) (delay_ms : ℤ) : ℕ × ℕ × ℚ :=
  let thresh := selectSetting OCD_threshold_setting
    (current_mA * shuntResistorValue_mOhm / 1000) (OCD_threshold_setting.length - 1)
  let delay := selectSetting OCD_delay_setting delay_ms (OCD_delay_setting.length - 1)
  (thresh, delay,
    OCD_threshold_setting.getD thresh 0 * 1000 / shuntResistorValue_mOhm)

/-! ## SOC estimator (`getSOC` bq769x0.cpp:461-464,
`resetSOC` bq769x0.cpp:468-495)

Modelled from the spec: the declared types of `coulombCounter` and
`nominalCapacity` live in the header (absent from the sources); the spec
(§3 SOCState, §4.7) treats them as exact signed quantities, so the
`double`/`float` arithmetic of the source is modelled exactly over `ℚ`.
`NUM_OCV_POINTS` (header constant) is the length of the OCV table. -/

/-- `getSOC() = coulombCounter / nominalCapacity * 100`. -/
def getSOC (coulombCounter nominalCapacity : ℚ) : ℚ :=
  coulombCounter / nominalCapacity * 100

/-- The OCV scan in the out-of-range branch of `resetSOC`
(bq769x0.cpp:480-493), with the running index `i`, the previous
breakpoint `prev` (`OCV[i-1]`, unused at `i = 0`) and the remaining
breakpoints as arguments.  At the first breakpoint `≤ voltage` it
returns the nominal capacity (at `i = 0`) or the linear interpolation
`cap / (N-1) * (N-1 - i + (voltage - OCV[i]) / (OCV[i-1] - OCV[i]))`;
if no breakpoint qualifies, the initial `coulombCounter = 0` survives. -/
def resetSOCocvScan (nominalCapacity : ℚ) (numOcvPoints : ℕ) (voltage : ℚ) :
    ℕ → ℚ → List ℚ → ℚ
  | _, _, [] => 0
  | i, prev, x :: rest =>
    if x ≤ voltage then
      if i = 0 then nominalCapacity
      else nominalCapacity / ((numOcvPoints : ℚ) - 1) *
        ((numOcvPoints : ℚ) - 1 - (i : ℚ) + (voltage - x) / (prev - x))
    else resetSOCocvScan nominalCapacity numOcvPoints voltage (i + 1) x rest

/-- The `coulombCounter` produced by the OCV-based reset at measured max
cell voltage `voltage`. -/
def resetSOCfromOCV (nominalCapacity : ℚ) (OCV : List ℚ) (voltage : ℚ) : ℚ :=
  resetSOCocvScan nominalCapacity OCV.length voltage 0 0 OCV

/-- `resetSOC(percent)` (bq769x0.cpp:468-495): the new `coulombCounter`.
In-range percent sets it directly; out-of-range percent falls back to
the OCV scan at the measured max cell voltage. -/
def resetSOC (nominalCapacity : ℚ) (OCV : List ℚ) (maxCellVoltage : ℚ)
    (percent : ℤ) : ℚ :=
  if percent ≤ 100 ∧ 0 ≤ percent then nominalCapacity * (percent : ℚ) / 100
  else resetSOCfromOCV nominalCapacity OCV maxCellVoltage

/-!
# Theorems
-/

/-! ### Claim C2 — CRC read transport (code bug)

The first received pair `(0x00, 0x00)` has a mismatched CRC (the CRC-8
of `{0x11, 0x00}` is 66), so the loop retries; but the accumulator is
not reset, so the second iteration compares against the chained value
51, and the pair `(0x00, 51)` is accepted: the call returns data `0x00`
accompanied by CRC byte 51, although CRC-8-CCITT over
`{bus-address<<1|1, data}` from initial value 0 is 66. -/

/-- Claim C2 (code bug witness): with CRC enabled, `readRegister` on bus
address `0x08` fed the byte pairs `[(0x00, 0x00), (0x00, 51)]` returns
the data byte `0x00` together with CRC byte `51`, even though the
CRC-8-CCITT checksum (poly `0x07`, init `0`) of
`{bus-address<<1|1, data} = {0x11, 0x00}` is `66 ≠ 51` (and the first
pair was indeed a mismatch, `0 ≠ 66`). -/
theorem readRegister_accepts_mismatched_crc :
    readRegister 0x08 [(0, 0), (0, 51)] = some (0, 51) ∧
    crc8OverAddrData ((0x08 <<< 1) ||| 1) 0 = 66 ∧
    (51 : ℕ) ≠ 66 ∧ (0 : ℕ) ≠ 66 := by
  decide

/-! ### Claim C3 — UV/OV threshold quantization (corrected) -/

/-- Claim C3 counterexample: with session calibration constants the
chip can report, both halves of the claim fail outside the 8-bit trip
windows.  Undervoltage: at `adcGain = 365` (= 365 + 0), `adcOffset = 0`,
requesting 3000 mV computes code `0x201B`; the `& 0xFF` mask wraps it
and the achieved threshold returned is 1506 mV < 3000 mV — refuting
`achieved ≥ requested` at the very example the claim gives.
Overvoltage: at `adcGain = 396` (= 365 + 31), `adcOffset = 0`,
requesting 2900 mV computes code `0x1C9B` (below the always-set bit 13
of `OV_TRIP`), the reconstruction forces bit 13 and the achieved
threshold returned is 4517 mV > 2900 mV — refuting
`achieved ≤ requested`. -/
theorem setCellUndervoltageProtection_wraps_below_request :
    setCellUndervoltageProtection 365 0 3000 = 1506 ∧
    setCellUndervoltageProtection 365 0 3000 < 3000 ∧
    setCellOvervoltageProtection 396 0 2900 = 4517 ∧
    2900 < setCellOvervoltageProtection 396 0 2900 := by
  decide

/-! ### Claim C5 — SCD auto-clear timing (corrected)

`alertInterruptFlag` is set when the fault interrupt fires and nothing
clears it while a fault bit stays latched (`updateCurrent` only clears
it when no fault bit is set, and with only SCD latched `CC_READY = 0`
anyway).  Each call therefore resets `secSinceErrorCounter` to 0; for
`t ≤ 2` the wraparound guard `|t - 0| > 2` does not fire, the `% 60`
test sees counter 0 and a clear is attempted at seconds 0, 1 AND 2;
from `t = 3` the guard resynchronises the counter to `t` and attempts
happen exactly at multiples of 60. -/

set_option maxRecDepth 20000 in
/-- Claim C5 counterexample: over a simulated 180-second run with only
the SCD bit set, the SCD clear attempt is issued 5 times, not 3, and
twice in consecutive seconds (seconds 1 and 2), contradicting "exactly
once per 60 elapsed seconds and not more often". -/
theorem checkStatus_scd_attempts_not_once_per_60s :
    (scdClearSeconds 180).length = 5 ∧
    (1 : ℤ) ∈ scdClearSeconds 180 ∧ (2 : ℤ) ∈ scdClearSeconds 180 := by
  decide

set_option maxRecDepth 20000 in
/-- Claim C5 (amended): across the simulated 180-second run the SCD
clear attempts happen exactly at seconds 0, 1, 2 (while the latched
alert flag keeps resetting the per-second counter, before the >2 s
resynchronisation takes over) and thereafter at every 60th second —
five attempts in total. -/
theorem checkStatus_scd_attempt_seconds :
    scdClearSeconds 180 = [0, 1, 2, 60, 120] := by
  decide

/-! ### Claim C6 — max/min cell index tracking (corrected) -/

/-- Claim C6 counterexample: with cell voltages
`[400, 3000, 2000, 2100, 2200]` the final `idCellMinVoltage` is 0,
whose reading 400 mV is NOT above 500 mV, while the first channel
attaining the strict minimum among cells reading above 500 mV is
channel 2 (2000 mV): the `> 500` filter is applied to challengers only,
never to the initial index 0. -/
theorem updateVoltages_min_id_keeps_low_seed :
    (updateVoltagesIds
      (fun i => ([400, 3000, 2000, 2100, 2200] : List ℤ).getD i 0) 5).2 = 0 ∧
    ([400, 3000, 2000, 2100, 2200] : List ℤ).getD 0 0 = 400 ∧
    ¬(400 : ℤ) > 500 ∧ (500 : ℤ) < 2000 := by
  decide

/-! ### Claim C7 — cell-voltage store overrun (confirmed, spec-modelled) -/

/-- Claim C7: the cell-read loop of `updateVoltages` iterates
`numberOfCells` times, so it stores to (and reads) index
`numberOfCells - 1`, which is past the end of the
`numberOfCells - 1`-element `cellVoltages` store — for every chip
variant. -/
theorem updateVoltages_loop_overruns_store (t : BqType) :
    (numberOfCells t - 1) ∈ updateVoltagesLoopIndices t ∧
    ¬(numberOfCells t - 1 < cellVoltagesLength t) := by
  cases t <;> exact ⟨by decide, by decide⟩

/-- Claim C7 witness: on the 5-cell bq76920 the loop touches index 4
while the store has only indices 0..3. -/
theorem updateVoltages_loop_overruns_store_witness :
    4 ∈ updateVoltagesLoopIndices BqType.bq76920 ∧
    ¬(4 < cellVoltagesLength BqType.bq76920) :=
  updateVoltages_loop_overruns_store BqType.bq76920

/-! ### Claim C10 — temperature getters (confirmed) -/

/-- Claim C10: `getTemperatureDegC(channel)` returns
`temperatures[channel-1] / 10` for channels 1, 2 and 3; for every
channel outside `{1,2,3}` (including zero and negative channels) it
returns the absolute-minimum-temperature sentinel
`-273.15 = -5463/20`, touching neither the bus nor any state (it is a
pure function of the temperature store); `getTemperatureDegF` is the
affine image `x * 1.8 + 32` of that result. -/
theorem getTemperature_channel_spec (temperatures : ℕ → ℤ) (channel : ℤ) :
    (channel = 1 ∨ channel = 2 ∨ channel = 3 →
      getTemperatureDegC temperatures channel =
        (temperatures (channel - 1).toNat : ℚ) / 10) ∧
    (channel < 1 ∨ 3 < channel →
      getTemperatureDegC temperatures channel = -5463 / 20) ∧
    getTemperatureDegF temperatures channel =
      getTemperatureDegC temperatures channel * (9 / 5) + 32 := by
  refine ⟨?_, ?_, ?_⟩
  · intro h
    have hc : 1 ≤ channel ∧ channel ≤ 3 := by rcases h with h | h | h <;> omega
    simp [getTemperatureDegC, hc]
  · intro h
    have hc : ¬(1 ≤ channel ∧ channel ≤ 3) := by omega
    rw [getTemperatureDegC, if_neg hc]
    norm_num
  · rw [getTemperatureDegF]
    norm_num

/-- Claim C10 witness: with every stored temperature reading 250
(25.0 °C), channel 1 gives 25 °C and the out-of-range channel 0 gives
the −273.15 °C sentinel; channel 1 in Fahrenheit is 77 °F. -/
theorem getTemperature_channel_spec_witness :
    getTemperatureDegC (fun _ => 250) 1 = 25 ∧
    getTemperatureDegC (fun _ => 250) 0 = -5463 / 20 ∧
    getTemperatureDegF (fun _ => 250) 1 = 77 := by
  refine ⟨?_, ?_, ?_⟩
  · have h := (getTemperature_channel_spec (fun _ => 250) 1).1 (Or.inl rfl)
    rw [h]; norm_num
  · exact (getTemperature_channel_spec (fun _ => 250) 0).2.1 (by norm_num)
  · have h := (getTemperature_channel_spec (fun _ => 250) 1).2.2
    have h1 := (getTemperature_channel_spec (fun _ => 250) 1).1 (Or.inl rfl)
    rw [h, h1]; norm_num

/-! ### Claim C9 — SOC round trip (confirmed, spec-modelled) -/

/-- Claim C9: for every nonzero nominal capacity and every percent
`0 ≤ p ≤ 100`, `resetSOC(p)` followed by `getSOC()` returns exactly `p`
(float rounding abstracted by exact rational arithmetic); in particular
50 round-trips to 50. -/
theorem resetSOC_getSOC_roundtrip (nominalCapacity : ℚ) (OCV : List ℚ)
    (maxCellVoltage : ℚ) (percent : ℤ)
    (hcap : nominalCapacity ≠ 0) (h0 : 0 ≤ percent) (h100 : percent ≤ 100) :
    getSOC (resetSOC nominalCapacity OCV maxCellVoltage percent) nominalCapacity
      = (percent : ℚ) := by
  rw [resetSOC, if_pos ⟨h100, h0⟩, getSOC]
  field_simp
  ring

/-- Claim C9 witness: capacity 7200 mA·s (2 mAh), `resetSOC(50)` then
`getSOC()` returns 50. -/
theorem resetSOC_getSOC_roundtrip_witness :
    getSOC (resetSOC 7200 [] 0 50) 7200 = 50 := by
  have h := resetSOC_getSOC_roundtrip 7200 [] 0 50 (by norm_num) (by decide) (by decide)
  rw [h]; norm_num

/-! ### Claim C3 (amended) — quantization bounds inside the representable
window -/

set_option maxRecDepth 4000 in
/-- Helper: `4096 ||| (t <<< 4)` in closed form for every byte value the
biased `uv_trip` can take (`t ≤ 256`; at `t = 256` the shifted bit
coincides with bit 12 and the `|` adds nothing). -/
theorem lor_two_pow_twelve_shift :
    ∀ t : ℕ, t < 257 →
      (4096 ||| (t <<< 4)) = if t = 256 then 4096 else 4096 + t * 16 := by
  decide

set_option maxRecDepth 4000 in
/-- Helper: `8192 ||| (t <<< 4)` in closed form for every byte value
(`t ≤ 255`). -/
theorem lor_two_pow_thirteen_shift :
    ∀ t : ℕ, t < 256 → (8192 ||| (t <<< 4)) = 8192 + t * 16 := by
  decide

/-- Helper: the masked byte is a remainder: `x &&& 0xFF = x % 256`. -/
theorem and_mask_ff (x : ℕ) : x &&& 0xFF = x % 256 := by
  have h := Nat.and_pow_two_sub_one_eq_mod x 8
  norm_num at h
  exact h

/-- Claim C3 (amended): let `q = (voltage − offset)·1000 / gain` be the
quantization code.  Whenever `q` stays within the window the 8-bit
`UV_TRIP` byte can represent after the `+1` bias (`q ≤ 0x1FEF`),
`setCellUndervoltageProtection` returns an achieved threshold `≥` the
requested voltage — above that window the mask wraps and the bound
fails (see the counterexample).  `setCellOvervoltageProtection` returns
an achieved threshold `≤` the requested voltage whenever `q ≥ 0x2000`
(at or above the always-set bit 13 of `OV_TRIP`): the masked
reconstruction `0x2000 | ((q >> 4 & 0xFF) << 4)` never exceeds `q`
there; below `0x2000` the forced bit 13 overshoots the request (see the
counterexample). -/
theorem setCellProtection_quantization_bias (adcGain adcOffset voltage_mV : ℕ)
    (hg : 0 < adcGain) (ho : adcOffset ≤ voltage_mV) :
    ((voltage_mV - adcOffset) * 1000 / adcGain ≤ 0x1FEF →
      voltage_mV ≤ setCellUndervoltageProtection adcGain adcOffset voltage_mV) ∧
    (0x2000 ≤ (voltage_mV - adcOffset) * 1000 / adcGain →
      setCellOvervoltageProtection adcGain adcOffset voltage_mV ≤ voltage_mV) := by
  set A := (voltage_mV - adcOffset) * 1000 with hA
  set q := A / adcGain with hq
  have hqA : q * adcGain ≤ A := Nat.div_mul_le_self A adcGain
  have hAq : A < (q + 1) * adcGain :=
    (Nat.div_lt_iff_lt_mul hg).mp (Nat.lt_succ_self q)
  constructor
  · -- undervoltage: achieved ≥ requested
    intro hwin
    have htrip : uv_trip adcGain adcOffset voltage_mV = q / 16 % 256 + 1 := by
      rw [uv_trip, Nat.shiftRight_eq_div_pow, and_mask_ff]
    have hbyte : q / 16 % 256 + 1 < 257 := by omega
    have hlor : (1 <<< 12) ||| (uv_trip adcGain adcOffset voltage_mV <<< 4) =
        if q / 16 % 256 + 1 = 256 then 4096 else 4096 + (q / 16 % 256 + 1) * 16 := by
      rw [htrip]
      exact lor_two_pow_twelve_shift _ hbyte
    -- the reconstructed code exceeds q in both branches of the helper
    have hrecon : q + 1 ≤ (1 <<< 12) ||| (uv_trip adcGain adcOffset voltage_mV <<< 4) := by
      rw [hlor]
      split
      · omega
      · omega
    have hmul : A + 1 ≤
        ((1 <<< 12) ||| (uv_trip adcGain adcOffset voltage_mV <<< 4)) * adcGain :=
      le_trans hAq (Nat.mul_le_mul_right adcGain hrecon)
    have hdiv : voltage_mV - adcOffset ≤
        ((1 <<< 12) ||| (uv_trip adcGain adcOffset voltage_mV <<< 4)) * adcGain / 1000 := by
      rw [Nat.le_div_iff_mul_le (by norm_num : (0:ℕ) < 1000)]
      omega
    rw [setCellUndervoltageProtection]
    omega
  · -- overvoltage: achieved ≤ requested
    intro hlo
    have htrip : ov_trip adcGain adcOffset voltage_mV = q / 16 % 256 := by
      rw [ov_trip, Nat.shiftRight_eq_div_pow, and_mask_ff]
    have hbyte : q / 16 % 256 < 256 := Nat.mod_lt _ (by norm_num)
    have hlor : (1 <<< 13) ||| (ov_trip adcGain adcOffset voltage_mV <<< 4) =
        8192 + (q / 16 % 256) * 16 := by
      rw [htrip]
      exact lor_two_pow_thirteen_shift _ hbyte
    have hrecon : (1 <<< 13) ||| (ov_trip adcGain adcOffset voltage_mV <<< 4) ≤ q := by
      rw [hlor]
      omega
    have hmul : ((1 <<< 13) ||| (ov_trip adcGain adcOffset voltage_mV <<< 4)) * adcGain
        ≤ A := le_trans (Nat.mul_le_mul_right adcGain hrecon) hqA
    have hdiv : ((1 <<< 13) ||| (ov_trip adcGain adcOffset voltage_mV <<< 4)) * adcGain / 1000
        ≤ voltage_mV - adcOffset := by
      have := Nat.div_le_div_right (c := 1000) hmul
      rwa [hA, Nat.mul_div_cancel _ (by norm_num : (0:ℕ) < 1000)] at this
    rw [setCellOvervoltageProtection]
    omega

/-- Claim C3 (amended) witness: with gain 380 µV/LSB and offset 10 mV —
both in the chip-representable calibration range — an undervoltage
request of 3000 mV (code 7868, inside the window) achieves ≥ 3000 mV,
and an overvoltage request of 3200 mV (code 8394, inside the window)
achieves ≤ 3200 mV. -/
theorem setCellProtection_quantization_bias_witness :
    3000 ≤ setCellUndervoltageProtection 380 10 3000 ∧
    setCellOvervoltageProtection 380 10 3200 ≤ 3200 := by
  constructor
  · exact (setCellProtection_quantization_bias 380 10 3000 (by decide) (by decide)).1
      (by decide)
  · exact (setCellProtection_quantization_bias 380 10 3200 (by decide) (by decide)).2
      (by decide)

/-! ### Claim C1 — balancing adjacency invariant (confirmed) -/

/-- Helper: a zero bitwise-and means no bit position is set in both
operands. -/
theorem testBit_false_of_land_eq_zero {x y : ℕ} (h : x &&& y = 0) (k : ℕ)
    (hx : x.testBit k = true) : y.testBit k = false := by
  cases hy : y.testBit k
  · rfl
  · exfalso
    have hbit := congrArg (Nat.testBit · k) h
    simp only [Nat.testBit_land, Nat.zero_testBit, hx, hy, Bool.true_and] at hbit
    exact Bool.noConfusion hbit

/-- Helper: bits of a left shift are bits of the operand, displaced. -/
theorem testBit_shiftLeft_one {x k : ℕ} :
    (x <<< 1).testBit (k + 1) = x.testBit k := by
  simp [Nat.testBit_shiftLeft]

/-- Helper: one step of the per-section balancing loop preserves the
no-two-adjacent-set-bits invariant: the shifted-bit collision test
refuses exactly the candidates whose direct neighbours are already
balancing. -/
theorem balanceCellStep_preserves_noAdjacent (cellVoltages : ℕ → ℤ)
    (idCellMinVoltage : ℕ) (diff : ℤ) (sec flags i : ℕ)
    (h : ∀ j, flags.testBit j = true → flags.testBit (j + 1) = false) :
    ∀ j, (balanceCellStep cellVoltages idCellMinVoltage diff sec flags i).testBit j = true →
      (balanceCellStep cellVoltages idCellMinVoltage diff sec flags i).testBit (j + 1) = false := by
  by_cases hv : cellVoltages (sec * 5 + i) - cellVoltages idCellMinVoltage > diff
  case neg =>
    simpa [balanceCellStep, hv] using h
  case pos =>
    by_cases hcol : ((flags ||| (1 <<< i)) <<< 1) &&& flags ≠ 0 ∨
        (flags <<< 1) &&& (flags ||| (1 <<< i)) ≠ 0
    case pos =>
      simpa [balanceCellStep, hv, if_pos hcol] using h
    case neg =>
      have hstep : balanceCellStep cellVoltages idCellMinVoltage diff sec flags i
          = flags ||| (1 <<< i) := by
        simp [balanceCellStep, hv, if_neg hcol]
      rw [hstep]
      push_neg at hcol
      obtain ⟨h1, h2⟩ := hcol
      -- the target adds exactly bit i
      have htarget : ∀ k, (flags ||| (1 <<< i)).testBit k =
          (flags.testBit k || decide (i = k)) := by
        intro k
        rw [Nat.testBit_lor, Nat.one_shiftLeft, Nat.testBit_two_pow]
      -- the collision test being false forbids bit i+1 in flags
      have hip1 : flags.testBit (i + 1) = false := by
        have hti : ((flags ||| (1 <<< i)) <<< 1).testBit (i + 1) = true := by
          rw [testBit_shiftLeft_one, htarget]
          simp
        exact testBit_false_of_land_eq_zero h1 (i + 1) hti
      -- and, when i = m+1, bit m in flags
      have him1 : ∀ m, i = m + 1 → flags.testBit m = false := by
        intro m hm
        cases hfm : flags.testBit m
        · rfl
        · exfalso
          have hs : (flags <<< 1).testBit (m + 1) = true := by
            rw [testBit_shiftLeft_one]
            exact hfm
          have hoff := testBit_false_of_land_eq_zero h2 (m + 1) hs
          rw [htarget, hm] at hoff
          simp at hoff
      intro j hj
      rw [htarget] at hj ⊢
      rcases Bool.or_eq_true_iff.mp hj with hfj | hij
      · -- bit j was already set in flags
        have hj1 : flags.testBit (j + 1) = false := h j hfj
        have hij1 : decide (i = j + 1) = false := by
          by_cases hieq : i = j + 1
          · exfalso
            have hf := him1 j hieq
            rw [hf] at hfj
            exact Bool.noConfusion hfj
          · simp [hieq]
        rw [hj1, hij1]
        rfl
      · -- bit j is the newly added bit i
        have hij2 : i = j := of_decide_eq_true hij
        have hj1 : flags.testBit (j + 1) = false := by
          rw [← hij2]
          exact hip1
        have hne : decide (i = j + 1) = false := by
          subst hij2
          simp
        rw [hj1, hne]
        rfl

/-- Helper: the invariant survives the whole fold over the cells of a
section. -/
theorem foldl_balanceCellStep_noAdjacent (cellVoltages : ℕ → ℤ)
    (idCellMinVoltage : ℕ) (diff : ℤ) (sec : ℕ) (l : List ℕ) :
    ∀ flags : ℕ,
      (∀ j, flags.testBit j = true → flags.testBit (j + 1) = false) →
      ∀ j, (l.foldl (balanceCellStep cellVoltages idCellMinVoltage diff sec) flags).testBit j
          = true →
        (l.foldl (balanceCellStep cellVoltages idCellMinVoltage diff sec) flags).testBit (j + 1)
          = false := by
  induction l with
  | nil => intro flags h; exact h
  | cons x xs ih =>
    intro flags h
    exact ih _ (balanceCellStep_preserves_noAdjacent cellVoltages idCellMinVoltage diff sec
      flags x h)

/-- Claim C1: whenever `updateBalancingSwitches` runs with the balancing
gate satisfied, the flag byte it writes to the balancing register of any
section never has two physically-adjacent set bits: a cell is added only
when its voltage exceeds the pack minimum by more than the differential
threshold AND adding its bit passes the two-sided shifted-bit collision
test, which rejects any candidate adjacent to an already-set bit. -/
theorem updateBalancingSwitches_no_adjacent_bits (statusOk : Bool)
    (idleSeconds balancingMinIdleTime_s : ℤ) (cellVoltages : ℕ → ℤ)
    (idCellMaxVoltage idCellMinVoltage : ℕ)
    (balancingMinCellVoltage_mV balancingMaxVoltageDifference_mV : ℤ)
    (hgate : balancingAllowed statusOk idleSeconds balancingMinIdleTime_s
      cellVoltages idCellMaxVoltage idCellMinVoltage
      balancingMinCellVoltage_mV balancingMaxVoltageDifference_mV)
    (sec j : ℕ)
    (hj : (balanceSectionFlags cellVoltages idCellMinVoltage
      balancingMaxVoltageDifference_mV sec).testBit j = true) :
    (balanceSectionFlags cellVoltages idCellMinVoltage
      balancingMaxVoltageDifference_mV sec).testBit (j + 1) = false := by
  refine foldl_balanceCellStep_noAdjacent cellVoltages idCellMinVoltage
    balancingMaxVoltageDifference_mV sec (List.range 5) 0 ?_ j hj
  intro k hk
  rw [Nat.zero_testBit] at hk
  exact absurd hk Bool.false_ne_true

/-- Claim C1 witness: a pack section reading
`[3600, 3300, 3580, 3590, 3585]` mV with the gate satisfied (status OK,
idle 2000 s ≥ 1800 s, max cell 3600 mV > 3400 mV, spread 300 mV >
20 mV) balances cells 0, 2 and 4 (flag byte `0b10101`); bit 0 is set
and, by the claim theorem, bit 1 is clear. -/
theorem updateBalancingSwitches_no_adjacent_bits_witness :
    (balanceSectionFlags
      (fun i => ([3600, 3300, 3580, 3590, 3585] : List ℤ).getD i 0) 1 20 0) = 21 ∧
    (balanceSectionFlags
      (fun i => ([3600, 3300, 3580, 3590, 3585] : List ℤ).getD i 0) 1 20 0).testBit 0 = true ∧
    (balanceSectionFlags
      (fun i => ([3600, 3300, 3580, 3590, 3585] : List ℤ).getD i 0) 1 20 0).testBit 1 = false := by
  refine ⟨by decide, by decide, ?_⟩
  exact updateBalancingSwitches_no_adjacent_bits true 2000 1800
    (fun i => ([3600, 3300, 3580, 3590, 3585] : List ℤ).getD i 0) 0 1 3400 20
    ⟨rfl, by decide, by decide, by decide⟩ 0 0 (by decide)

/-! ### Claim C6 (amended) — index tracking characterisation -/

/-- Helper: one iteration of the cell loop, max-index component. -/
theorem updateVoltagesIds_succ_fst (v : ℕ → ℤ) (m : ℕ) :
    (updateVoltagesIds v (m + 1)).1 =
      if v m > v (updateVoltagesIds v m).1 then m
      else (updateVoltagesIds v m).1 := rfl

/-- Helper: one iteration of the cell loop, min-index component. -/
theorem updateVoltagesIds_succ_snd (v : ℕ → ℤ) (m : ℕ) :
    (updateVoltagesIds v (m + 1)).2 =
      if v m < v (updateVoltagesIds v m).2 ∧ v m > 500 then m
      else (updateVoltagesIds v m).2 := rfl

/-- Helper: after `n ≥ 1` iterations, `idCellMaxVoltage` is the first
channel attaining the strict maximum. -/
theorem updateVoltagesIds_max_spec (v : ℕ → ℤ) :
    ∀ n, 0 < n →
      (updateVoltagesIds v n).1 < n ∧
      (∀ i, i < n → v i ≤ v (updateVoltagesIds v n).1) ∧
      (∀ j, j < (updateVoltagesIds v n).1 → v j < v (updateVoltagesIds v n).1) := by
  intro n
  induction n with
  | zero => intro h; exact absurd h (lt_irrefl 0)
  | succ m ih =>
    intro _
    rcases Nat.eq_zero_or_pos m with hm | hm
    · subst hm
      rw [updateVoltagesIds_succ_fst]
      have h1 : (updateVoltagesIds v 0).1 = 0 := rfl
      rw [h1, if_neg (lt_irrefl (v 0))]
      refine ⟨Nat.zero_lt_one, ?_, ?_⟩
      · intro i hi
        interval_cases i
        exact le_refl _
      · intro j hj
        exact absurd hj (Nat.not_lt_zero j)
    · obtain ⟨hlt, hub, hfirst⟩ := ih hm
      rw [updateVoltagesIds_succ_fst]
      by_cases hv : v m > v (updateVoltagesIds v m).1
      · rw [if_pos hv]
        refine ⟨Nat.lt_succ_self m, ?_, ?_⟩
        · intro i hi
          rcases Nat.lt_succ_iff_lt_or_eq.mp hi with hi | hi
          · exact le_of_lt (lt_of_le_of_lt (hub i hi) hv)
          · subst hi
            exact le_refl _
        · intro j hj
          exact lt_of_le_of_lt (hub j hj) hv
      · rw [if_neg hv]
        refine ⟨lt_trans hlt (Nat.lt_succ_self m), ?_, hfirst⟩
        intro i hi
        rcases Nat.lt_succ_iff_lt_or_eq.mp hi with hi | hi
        · exact hub i hi
        · subst hi
          exact le_of_not_lt hv

/-- Helper: after `n ≥ 1` iterations, provided the seed channel 0 reads
above 500 mV, `idCellMinVoltage` is the first channel attaining the
strict minimum among channels reading above 500 mV. -/
theorem updateVoltagesIds_min_spec (v : ℕ → ℤ) (h0 : v 0 > 500) :
    ∀ n, 0 < n →
      (updateVoltagesIds v n).2 < n ∧
      v (updateVoltagesIds v n).2 > 500 ∧
      (∀ i, i < n → v i > 500 → v (updateVoltagesIds v n).2 ≤ v i) ∧
      (∀ j, j < (updateVoltagesIds v n).2 → v j > 500 →
        v (updateVoltagesIds v n).2 < v j) := by
  intro n
  induction n with
  | zero => intro h; exact absurd h (lt_irrefl 0)
  | succ m ih =>
    intro _
    rcases Nat.eq_zero_or_pos m with hm | hm
    · subst hm
      rw [updateVoltagesIds_succ_snd]
      have h1 : (updateVoltagesIds v 0).2 = 0 := rfl
      rw [h1, ite_self]
      refine ⟨Nat.zero_lt_one, h0, ?_, ?_⟩
      · intro i hi _
        interval_cases i
        exact le_refl _
      · intro j hj
        exact absurd hj (Nat.not_lt_zero j)
    · obtain ⟨hlt, h500, hub, hfirst⟩ := ih hm
      rw [updateVoltagesIds_succ_snd]
      by_cases hv : v m < v (updateVoltagesIds v m).2 ∧ v m > 500
      · rw [if_pos hv]
        refine ⟨Nat.lt_succ_self m, hv.2, ?_, ?_⟩
        · intro i hi hi500
          rcases Nat.lt_succ_iff_lt_or_eq.mp hi with hi | hi
          · exact le_of_lt (lt_of_lt_of_le hv.1 (hub i hi hi500))
          · subst hi
            exact le_refl _
        · intro j hj hj500
          exact lt_of_lt_of_le hv.1 (hub j hj hj500)
      · rw [if_neg hv]
        refine ⟨lt_trans hlt (Nat.lt_succ_self m), h500, ?_, hfirst⟩
        intro i hi hi500
        rcases Nat.lt_succ_iff_lt_or_eq.mp hi with hi | hi
        · exact hub i hi hi500
        · subst hi
          rcases not_and_or.mp hv with hv1 | hv2
          · exact le_of_not_lt hv1
          · exact absurd hi500 hv2

/-- Claim C6 (amended): each `updateVoltages` call resets both indices
to 0 and then tracks `idCellMaxVoltage` as the first channel attaining
the strict maximum; `idCellMinVoltage` is the first channel attaining
the strict minimum among channels above 500 mV PROVIDED channel 0
itself reads above 500 mV: the `> 500` filter is applied to challengers
only, so a low (disconnected) channel 0 is kept as the reported minimum
index (see the counterexample). -/
theorem updateVoltages_id_tracking (v : ℕ → ℤ) (n : ℕ) (hn : 0 < n) :
    updateVoltagesIds v 0 = (0, 0) ∧
    ((updateVoltagesIds v n).1 < n ∧
      (∀ i, i < n → v i ≤ v (updateVoltagesIds v n).1) ∧
      (∀ j, j < (updateVoltagesIds v n).1 → v j < v (updateVoltagesIds v n).1)) ∧
    (v 0 > 500 →
      (updateVoltagesIds v n).2 < n ∧
      v (updateVoltagesIds v n).2 > 500 ∧
      (∀ i, i < n → v i > 500 → v (updateVoltagesIds v n).2 ≤ v i) ∧
      (∀ j, j < (updateVoltagesIds v n).2 → v j > 500 →
        v (updateVoltagesIds v n).2 < v j)) :=
  ⟨rfl, updateVoltagesIds_max_spec v n hn,
    fun h0 => updateVoltagesIds_min_spec v h0 n hn⟩

/-- Claim C6 (amended) witness: for the 5-cell pack
`[3000, 2900, 3100, 2950, 3050]` (channel 0 above 500 mV) the tracked
max index bounds every cell from above and the tracked min index reads
above 500 mV; concretely the loop returns max index 2 and min index 1. -/
theorem updateVoltages_id_tracking_witness :
    (∀ i, i < 5 →
      (fun k => ([3000, 2900, 3100, 2950, 3050] : List ℤ).getD k 0) i ≤
      (fun k => ([3000, 2900, 3100, 2950, 3050] : List ℤ).getD k 0)
        (updateVoltagesIds
          (fun k => ([3000, 2900, 3100, 2950, 3050] : List ℤ).getD k 0) 5).1) ∧
    (fun k => ([3000, 2900, 3100, 2950, 3050] : List ℤ).getD k 0)
        (updateVoltagesIds
          (fun k => ([3000, 2900, 3100, 2950, 3050] : List ℤ).getD k 0) 5).2 > 500 ∧
    (updateVoltagesIds
      (fun k => ([3000, 2900, 3100, 2950, 3050] : List ℤ).getD k 0) 5) = (2, 1) :=
  ⟨(updateVoltages_id_tracking
      (fun k => ([3000, 2900, 3100, 2950, 3050] : List ℤ).getD k 0) 5
      (by decide)).2.1.2.1,
   ((updateVoltages_id_tracking
      (fun k => ([3000, 2900, 3100, 2950, 3050] : List ℤ).getD k 0) 5
      (by decide)).2.2 (by decide)).2.1,
   by decide⟩

/-! ### Claim C4 — threshold/delay table selection (confirmed,
spec-modelled tables) -/

/-- Helper: the downward scan never selects an index above its start. -/
theorem selectSetting_le {α : Type} [LinearOrder α] (table : List α) (req : α) :
    ∀ i, selectSetting table req i ≤ i := by
  intro i
  induction i with
  | zero => exact le_refl 0
  | succ m ih =>
    rw [selectSetting]
    split
    · exact le_refl _
    · exact le_trans ih (Nat.le_succ m)

/-- Helper: the scan selects index 0 (the default) or an entry not
exceeding the request. -/
theorem selectSetting_sound {α : Type} [LinearOrder α] (table : List α) (req : α) :
    ∀ i, selectSetting table req i = 0 ∨
      table.getD (selectSetting table req i) req ≤ req := by
  intro i
  induction i with
  | zero => exact Or.inl rfl
  | succ m ih =>
    rw [selectSetting]
    split
    case isTrue h => exact Or.inr h
    case isFalse h => exact ih

/-- Helper: the scan dominates every index (up to its start) whose entry
does not exceed the request — the first hit from the top is the largest
such index. -/
theorem selectSetting_greatest {α : Type} [LinearOrder α] (table : List α) (req : α) :
    ∀ i j, j ≤ i → table.getD j req ≤ req → j ≤ selectSetting table req i := by
  intro i
  induction i with
  | zero => intro j hj _; exact hj
  | succ m ih =>
    intro j hj hentry
    rw [selectSetting]
    split
    case isTrue h => exact hj
    case isFalse h =>
      rcases Nat.lt_succ_iff_lt_or_eq.mp (Nat.lt_succ_of_le hj) with hlt | heq
      · exact ih j (Nat.lt_succ_iff.mp hlt) hentry
      · exact absurd (heq ▸ hentry) h

/-- Helper: the fallback value of an in-range `getD` is irrelevant. -/
theorem getD_default_eq {α : Type} (l : List α) (d1 d2 : α) (n : ℕ)
    (hn : n < l.length) : l.getD n d1 = l.getD n d2 := by
  rw [List.getD_eq_getElem l d1 hn, List.getD_eq_getElem l d2 hn]

/-- Claim C4: for every requested short-circuit-discharge (or
overcurrent-discharge) limit and delay, the configurator picks, by a
downward scan, the largest threshold-table index whose entry does not
exceed the shunt-normalized request `current·shunt/1000` (index 0 when
none matches), likewise the largest delay-table index whose entry does
not exceed the requested delay, and returns the selected threshold
entry denormalized through the shunt resistance;
`setOvercurrentDischargeProtection` is the very same computation on its
own tables. -/
theorem setShortCircuitProtection_selects_largest (thTable : List ℚ)
    (dlTable : List ℤ) (shunt current : ℚ) (delay : ℤ)
    (hthne : thTable ≠ []) (hdlne : dlTable ≠ [])
    (hth : thTable.Pairwise (· ≤ ·)) :
    (setShortCircuitProtection thTable dlTable shunt current delay).1 <
      thTable.length ∧
    ((setShortCircuitProtection thTable dlTable shunt current delay).1 = 0 ∨
      thTable.getD (setShortCircuitProtection thTable dlTable shunt current delay).1 0 ≤
        current * shunt / 1000) ∧
    (∀ j, j < thTable.length → thTable.getD j 0 ≤ current * shunt / 1000 →
      j ≤ (setShortCircuitProtection thTable dlTable shunt current delay).1) ∧
    (∀ j, j < thTable.length → thTable.getD j 0 ≤ current * shunt / 1000 →
      thTable.getD j 0 ≤
        thTable.getD (setShortCircuitProtection thTable dlTable shunt current delay).1 0) ∧
    (setShortCircuitProtection thTable dlTable shunt current delay).2.1 <
      dlTable.length ∧
    ((setShortCircuitProtection thTable dlTable shunt current delay).2.1 = 0 ∨
      dlTable.getD (setShortCircuitProtection thTable dlTable shunt current delay).2.1 0 ≤
        delay) ∧
    (∀ j, j < dlTable.length → dlTable.getD j 0 ≤ delay →
      j ≤ (setShortCircuitProtection thTable dlTable shunt current delay).2.1) ∧
    (setShortCircuitProtection thTable dlTable shunt current delay).2.2 =
      thTable.getD (setShortCircuitProtection thTable dlTable shunt current delay).1 0 *
        1000 / shunt ∧
    setOvercurrentDischargeProtection thTable dlTable shunt current delay =
      setShortCircuitProtection thTable dlTable shunt current delay := by
  have hthlen : 0 < thTable.length := List.length_pos.mpr hthne
  have hdllen : 0 < dlTable.length := List.length_pos.mpr hdlne
  set req : ℚ := current * shunt / 1000 with hreq
  have hfst : (setShortCircuitProtection thTable dlTable shunt current delay).1 =
      selectSetting thTable req (thTable.length - 1) := rfl
  have hsnd : (setShortCircuitProtection thTable dlTable shunt current delay).2.1 =
      selectSetting dlTable delay (dlTable.length - 1) := rfl
  have hthlt : selectSetting thTable req (thTable.length - 1) < thTable.length :=
    lt_of_le_of_lt (selectSetting_le thTable req (thTable.length - 1))
      (Nat.sub_lt hthlen Nat.one_pos)
  have hdllt : selectSetting dlTable delay (dlTable.length - 1) < dlTable.length :=
    lt_of_le_of_lt (selectSetting_le dlTable delay (dlTable.length - 1))
      (Nat.sub_lt hdllen Nat.one_pos)
  have hthsound : selectSetting thTable req (thTable.length - 1) = 0 ∨
      thTable.getD (selectSetting thTable req (thTable.length - 1)) 0 ≤ req := by
    rcases selectSetting_sound thTable req (thTable.length - 1) with h | h
    · exact Or.inl h
    · exact Or.inr (by rwa [getD_default_eq thTable 0 req _ hthlt])
  have hdlsound : selectSetting dlTable delay (dlTable.length - 1) = 0 ∨
      dlTable.getD (selectSetting dlTable delay (dlTable.length - 1)) 0 ≤ delay := by
    rcases selectSetting_sound dlTable delay (dlTable.length - 1) with h | h
    · exact Or.inl h
    · exact Or.inr (by rwa [getD_default_eq dlTable 0 delay _ hdllt])
  have hthgreat : ∀ j, j < thTable.length → thTable.getD j 0 ≤ req →
      j ≤ selectSetting thTable req (thTable.length - 1) := by
    intro j hj hentry
    refine selectSetting_greatest thTable req (thTable.length - 1) j ?_ ?_
    · omega
    · rwa [← getD_default_eq thTable 0 req j hj]
  have hdlgreat : ∀ j, j < dlTable.length → dlTable.getD j 0 ≤ delay →
      j ≤ selectSetting dlTable delay (dlTable.length - 1) := by
    intro j hj hentry
    refine selectSetting_greatest dlTable delay (dlTable.length - 1) j ?_ ?_
    · omega
    · rwa [← getD_default_eq dlTable 0 delay j hj]
  refine ⟨hfst ▸ hthlt, hfst ▸ hthsound, ?_, ?_, hsnd ▸ hdllt, hsnd ▸ hdlsound, ?_, rfl, rfl⟩
  · intro j hj hentry
    exact hfst ▸ hthgreat j hj hentry
  · intro j hj hentry
    have hje := hthgreat j hj hentry
    rw [hfst]
    rcases Nat.lt_or_ge j (selectSetting thTable req (thTable.length - 1)) with hlt | hge
    · have := (List.pairwise_iff_getElem.mp hth) j
        (selectSetting thTable req (thTable.length - 1)) hj hthlt hlt
      rwa [List.getD_eq_getElem thTable 0 hj,
        List.getD_eq_getElem thTable 0 hthlt]
    · have hjeq : j = selectSetting thTable req (thTable.length - 1) := le_antisymm hje hge
      rw [hjeq]
  · intro j hj hentry
    exact hsnd ▸ hdlgreat j hj hentry

/-- Claim C4 witness: with the datasheet-style SCD table
`[44, 67, 89, 111, 133, 155, 178, 200]` mV, delays
`[70, 100, 200, 400]` µs, a 1 mΩ shunt, a request of 100 A
(normalized: 100 mV) and 250 µs: the scan picks threshold index 2
(89 mV, the largest entry ≤ 100) and delay index 2 (200 µs), and the
achieved current 89 000 mA is the selected entry denormalized through
the shunt. -/
theorem setShortCircuitProtection_selects_largest_witness :
    (setShortCircuitProtection [44, 67, 89, 111, 133, 155, 178, 200]
      [70, 100, 200, 400] 1 100000 250) = (2, 2, 89000) ∧
    (∀ j, j < 8 → ([44, 67, 89, 111, 133, 155, 178, 200] : List ℚ).getD j 0 ≤
        (100000 : ℚ) * 1 / 1000 →
      j ≤ (setShortCircuitProtection [44, 67, 89, 111, 133, 155, 178, 200]
        [70, 100, 200, 400] 1 100000 250).1) := by
  constructor
  · norm_num [setShortCircuitProtection, selectSetting]
  · have h := setShortCircuitProtection_selects_largest
      [44, 67, 89, 111, 133, 155, 178, 200] [70, 100, 200, 400] 1 100000 250
      (List.cons_ne_nil _ _) (List.cons_ne_nil _ _) (by norm_num [List.pairwise_cons])
    exact h.2.2.1

/-! ### Claim C8 — OCV-reset monotonicity (confirmed) -/

/-- Helper: scan of an exhausted table keeps the depleted 0. -/
theorem resetSOCocvScan_nil (cap : ℚ) (N : ℕ) (v : ℚ) (i : ℕ) (prev : ℚ) :
    resetSOCocvScan cap N v i prev [] = 0 := rfl

/-- Helper: unfolding one step of the OCV scan. -/
theorem resetSOCocvScan_cons (cap : ℚ) (N : ℕ) (v : ℚ) (i : ℕ) (prev x : ℚ)
    (rest : List ℚ) :
    resetSOCocvScan cap N v i prev (x :: rest) =
      if x ≤ v then
        if i = 0 then cap
        else cap / ((N : ℚ) - 1) * ((N : ℚ) - 1 - (i : ℚ) + (v - x) / (prev - x))
      else resetSOCocvScan cap N v (i + 1) x rest := rfl

/-- Helper: the scan result is the capacity times a capacity-free
fraction (the source multiplies `nominalCapacity` into every branch). -/
theorem resetSOCocvScan_factor (l : List ℚ) :
    ∀ (cap : ℚ) (N : ℕ) (v : ℚ) (i : ℕ) (prev : ℚ),
      resetSOCocvScan cap N v i prev l = cap * resetSOCocvScan 1 N v i prev l := by
  induction l with
  | nil =>
    intro cap N v i prev
    rw [resetSOCocvScan_nil, resetSOCocvScan_nil, mul_zero]
  | cons x rest ih =>
    intro cap N v i prev
    rw [resetSOCocvScan_cons, resetSOCocvScan_cons]
    by_cases hx : x ≤ v
    · rw [if_pos hx, if_pos hx]
      by_cases hi : i = 0
      · rw [if_pos hi, if_pos hi, mul_one]
      · rw [if_neg hi, if_neg hi]
        ring
    · rw [if_neg hx, if_neg hx, ih]

/-- Helper: starting strictly inside the table (`i ≥ 1`) with the
measured voltage strictly below the previous breakpoint, the
capacity-free scan is at most `(N − i)/(N − 1)` — each deeper segment
only has less charge above it. -/
theorem resetSOCocvScan_le_bound (l : List ℚ) :
    ∀ (N : ℕ) (v : ℚ) (i : ℕ) (prev : ℚ),
      1 ≤ i → i + l.length = N → v < prev →
      List.Chain' (· > ·) (prev :: l) →
      resetSOCocvScan 1 N v i prev l ≤ ((N : ℚ) - (i : ℚ)) / ((N : ℚ) - 1) := by
  induction l with
  | nil =>
    intro N v i prev _ hN _ _
    rw [resetSOCocvScan_nil]
    have hiN : i = N := by simpa using hN
    subst hiN
    rw [sub_self, zero_div]
  | cons x rest ih =>
    intro N v i prev hi hN hvprev hchain
    obtain ⟨hpx, hchain2⟩ := List.chain'_cons.mp hchain
    have hN2 : 2 ≤ N := by
      simp only [List.length_cons] at hN
      omega
    have hN1 : (0 : ℚ) < (N : ℚ) - 1 := by
      have h2 : (2 : ℚ) ≤ (N : ℚ) := by exact_mod_cast hN2
      linarith
    rw [resetSOCocvScan_cons]
    by_cases hx : x ≤ v
    · rw [if_pos hx, if_neg (by omega : ¬ i = 0)]
      have hdenom : (0 : ℚ) < prev - x := by linarith
      have hf : (v - x) / (prev - x) < 1 := by
        rw [div_lt_one hdenom]
        linarith
      have hE : (N : ℚ) - 1 - (i : ℚ) + (v - x) / (prev - x) ≤ (N : ℚ) - (i : ℚ) := by
        linarith
      calc 1 / ((N : ℚ) - 1) * ((N : ℚ) - 1 - (i : ℚ) + (v - x) / (prev - x))
          = ((N : ℚ) - 1 - (i : ℚ) + (v - x) / (prev - x)) / ((N : ℚ) - 1) := by ring
        _ ≤ ((N : ℚ) - (i : ℚ)) / ((N : ℚ) - 1) := (div_le_div_iff_of_pos_right hN1).mpr hE
    · rw [if_neg hx]
      have hrec := ih N v (i + 1) x (by omega)
        (by simp only [List.length_cons] at hN; omega)
        (lt_of_not_le hx) hchain2
      have hcast : ((i + 1 : ℕ) : ℚ) = (i : ℚ) + 1 := by push_cast; ring
      rw [hcast] at hrec
      calc resetSOCocvScan 1 N v (i + 1) x rest
          ≤ ((N : ℚ) - ((i : ℚ) + 1)) / ((N : ℚ) - 1) := hrec
        _ ≤ ((N : ℚ) - (i : ℚ)) / ((N : ℚ) - 1) :=
            (div_le_div_iff_of_pos_right hN1).mpr (by linarith)

/-- Helper: monotonicity of the capacity-free scan in the measured
voltage. -/
theorem resetSOCocvScan_mono (l : List ℚ) :
    ∀ (N : ℕ) (v1 v2 : ℚ) (i : ℕ) (prev : ℚ),
      v1 ≤ v2 → i + l.length = N → List.Chain' (· > ·) l →
      (i ≠ 0 → ∀ y, l.head? = some y → prev > y) →
      resetSOCocvScan 1 N v1 i prev l ≤ resetSOCocvScan 1 N v2 i prev l := by
  induction l with
  | nil =>
    intro N v1 v2 i prev _ _ _ _
    rw [resetSOCocvScan_nil, resetSOCocvScan_nil]
  | cons x rest ih =>
    intro N v1 v2 i prev hv hN hchain hprev
    rw [resetSOCocvScan_cons, resetSOCocvScan_cons]
    by_cases hx1 : x ≤ v1
    · have hx2 : x ≤ v2 := le_trans hx1 hv
      rw [if_pos hx1, if_pos hx2]
      by_cases hi : i = 0
      · rw [if_pos hi, if_pos hi]
      · rw [if_neg hi, if_neg hi]
        have hpx : prev > x := hprev hi x rfl
        have hdenom : (0 : ℚ) < prev - x := by linarith
        have hN2 : 2 ≤ N := by
          simp only [List.length_cons] at hN
          omega
        have hN1 : (0 : ℚ) < (N : ℚ) - 1 := by
          have h2 : (2 : ℚ) ≤ (N : ℚ) := by exact_mod_cast hN2
          linarith
        have hf : (v1 - x) / (prev - x) ≤ (v2 - x) / (prev - x) :=
          (div_le_div_iff_of_pos_right hdenom).mpr (by linarith)
        calc 1 / ((N : ℚ) - 1) * ((N : ℚ) - 1 - (i : ℚ) + (v1 - x) / (prev - x))
            = ((N : ℚ) - 1 - (i : ℚ) + (v1 - x) / (prev - x)) / ((N : ℚ) - 1) := by
              ring
          _ ≤ ((N : ℚ) - 1 - (i : ℚ) + (v2 - x) / (prev - x)) / ((N : ℚ) - 1) :=
              (div_le_div_iff_of_pos_right hN1).mpr (by linarith)
          _ = 1 / ((N : ℚ) - 1) * ((N : ℚ) - 1 - (i : ℚ) + (v2 - x) / (prev - x)) := by
              ring
    · by_cases hx2 : x ≤ v2
      · -- v1 still below breakpoint x, v2 at or above: the v1 scan descends
        -- into deeper segments, all of which carry at most the charge at x
        rw [if_neg hx1, if_pos hx2]
        have hv1x : v1 < x := lt_of_not_le hx1
        by_cases hi : i = 0
        · rw [if_pos hi]
          subst hi
          cases rest with
          | nil =>
            rw [resetSOCocvScan_nil]
            norm_num
          | cons y ys =>
            have hN2 : 2 ≤ N := by
              simp only [List.length_cons] at hN
              omega
            have hN1 : (0 : ℚ) < (N : ℚ) - 1 := by
              have h2 : (2 : ℚ) ≤ (N : ℚ) := by exact_mod_cast hN2
              linarith
            have hb := resetSOCocvScan_le_bound (y :: ys) N v1 1 x (le_refl 1)
              (by simp only [List.length_cons] at hN ⊢; omega) hv1x hchain
            have hone : ((N : ℚ) - ((1 : ℕ) : ℚ)) / ((N : ℚ) - 1) = 1 := by
              rw [Nat.cast_one]
              exact div_self (ne_of_gt hN1)
            rw [hone] at hb
            exact hb
        · rw [if_neg hi]
          have hpx : prev > x := hprev hi x rfl
          have hdenom : (0 : ℚ) < prev - x := by linarith
          have hN2 : 2 ≤ N := by
            simp only [List.length_cons] at hN
            omega
          have hN1 : (0 : ℚ) < (N : ℚ) - 1 := by
            have h2 : (2 : ℚ) ≤ (N : ℚ) := by exact_mod_cast hN2
            linarith
          have hb := resetSOCocvScan_le_bound rest N v1 (i + 1) x (by omega)
            (by simp only [List.length_cons] at hN ⊢; omega) hv1x hchain
          have hcast : ((i + 1 : ℕ) : ℚ) = (i : ℚ) + 1 := by push_cast; ring
          rw [hcast] at hb
          have hf2 : (0 : ℚ) ≤ (v2 - x) / (prev - x) :=
            div_nonneg (by linarith) (le_of_lt hdenom)
          have hlow : ((N : ℚ) - ((i : ℚ) + 1)) / ((N : ℚ) - 1) ≤
              1 / ((N : ℚ) - 1) * ((N : ℚ) - 1 - (i : ℚ) + (v2 - x) / (prev - x)) := by
            calc ((N : ℚ) - ((i : ℚ) + 1)) / ((N : ℚ) - 1)
                ≤ ((N : ℚ) - 1 - (i : ℚ) + (v2 - x) / (prev - x)) / ((N : ℚ) - 1) :=
                  (div_le_div_iff_of_pos_right hN1).mpr (by linarith)
              _ = 1 / ((N : ℚ) - 1) * ((N : ℚ) - 1 - (i : ℚ) + (v2 - x) / (prev - x)) := by
                  ring
          exact le_trans hb hlow
      · rw [if_neg hx1, if_neg hx2]
        refine ih N v1 v2 (i + 1) x hv
          (by simp only [List.length_cons] at hN ⊢; omega) hchain.tail ?_
        intro _ y hy
        cases rest with
        | nil => exact absurd hy (by simp)
        | cons z zs =>
          have hxz : x > z := (List.chain'_cons.mp hchain).1
          have hzy : z = y := by
            simp only [List.head?_cons, Option.some.injEq] at hy
            exact hy
          rw [← hzy]
          exact hxz

/-- Claim C8: for every strictly descending OCV breakpoint table and
nonzero nominal capacity, the OCV-based reset (`resetSOC` with an
out-of-range percent) is monotone in the measured max cell voltage:
the SOC read back after resetting at `v1 ≤ v2` is no larger than the
SOC after resetting at `v2`. -/
theorem resetSOC_ocv_monotone (OCV : List ℚ) (nominalCapacity v1 v2 : ℚ)
    (percent : ℤ) (hp : ¬(percent ≤ 100 ∧ 0 ≤ percent))
    (hchain : List.Chain' (· > ·) OCV) (hcap : nominalCapacity ≠ 0)
    (hv : v1 ≤ v2) :
    getSOC (resetSOC nominalCapacity OCV v1 percent) nominalCapacity ≤
      getSOC (resetSOC nominalCapacity OCV v2 percent) nominalCapacity := by
  have h1 : resetSOCfromOCV nominalCapacity OCV v1 =
      nominalCapacity * resetSOCocvScan 1 OCV.length v1 0 0 OCV :=
    resetSOCocvScan_factor OCV nominalCapacity OCV.length v1 0 0
  have h2 : resetSOCfromOCV nominalCapacity OCV v2 =
      nominalCapacity * resetSOCocvScan 1 OCV.length v2 0 0 OCV :=
    resetSOCocvScan_factor OCV nominalCapacity OCV.length v2 0 0
  rw [resetSOC, resetSOC, if_neg hp, if_neg hp, getSOC, getSOC, h1, h2,
    mul_div_cancel_left₀ _ hcap, mul_div_cancel_left₀ _ hcap]
  have hmono := resetSOCocvScan_mono OCV OCV.length v1 v2 0 0 hv
    (by simp) hchain (fun h => absurd rfl h)
  have h100 : (0 : ℚ) ≤ 100 := by norm_num
  exact mul_le_mul_of_nonneg_right hmono h100

/-- Claim C8 witness: OCV table `[3300, 3000, 2700]` (strictly
descending), capacity 3600, measured 2800 mV vs 3100 mV, reset with the
out-of-range sentinel `resetSOC(101)`: the SOC at 2800 mV does not
exceed the SOC at 3100 mV. -/
theorem resetSOC_ocv_monotone_witness :
    getSOC (resetSOC 3600 [3300, 3000, 2700] 2800 101) 3600 ≤
      getSOC (resetSOC 3600 [3300, 3000, 2700] 3100 101) 3600 :=
  resetSOC_ocv_monotone [3300, 3000, 2700] 3600 2800 3100 101 (by decide)
    (by norm_num [List.chain'_cons]) (by norm_num) (by norm_num)

end Bq769x0
